import Mathlib

/-!
Verification of the Plinko X provably-fair engine (`src/mathematics.js`).

The JavaScript source is shallowly embedded: JS strings become `List Nat` of
UTF-16 code units, JS numbers holding 32-bit words become `Nat` reduced
`% 2 ^ 32` wherever the source applies `| 0` (ToInt32) or a bitwise operator,
JS arrays become `List Nat`, and the `return;` escape of `sha256` on non-Latin-1
input becomes `Option`.  Signed versus unsigned 32-bit representation is
immaterial here: every JS value of the algorithm is consumed either through
`| 0`-style wraparound addition, a bitwise operator, or `(x >> s) & 255`, all of
which agree with the unsigned `% 2 ^ 32` model.
-/

set_option maxRecDepth 400000

namespace Plinko

/-! ### CryptoEngine (src/mathematics.js lines 252-390) -/

/-- `CryptoEngine.rotr(n, x) = (x >>> n) | (x << (32 - n))`, 32-bit rotation.
Every call site uses `0 < n < 32`, so the JS shift-count masking never fires. -/
def rotr (n x : Nat) : Nat :=
  ((x >>> n) ||| (x <<< (32 - n))) % 4294967296

/-- The static table `CryptoEngine.K` (lines 255-264): the 64 SHA-256 round
constants, shipped verbatim by the source (written there in hexadecimal;
rendered here in decimal, value for value, in the same order). -/
def K64 : List Nat :=
  [1116352408, 1899447441, 3049323471, 3921009573, 961987163, 1508970993,
   2453635748, 2870763221, 3624381080, 310598401, 607225278, 1426881987,
   1925078388, 2162078206, 2614888103, 3248222580, 3835390401, 4022224774,
   264347078, 604807628, 770255983, 1249150122, 1555081692, 1996064986,
   2554220882, 2821834349, 2952996808, 3210313671, 3336571891, 3584528711,
   113926993, 338241895, 666307205, 773529912, 1294757372, 1396182291,
   1695183700, 1986661051, 2177026350, 2456956037, 2730485921, 2820302411,
   3259730800, 3345764771, 3516065817, 3600352804, 4094571909, 275423344,
   430227734, 506948616, 659060556, 883997877, 958139571, 1322822218,
   1537002063, 1747873779, 1955562222, 2024104815, 2227730452, 2361852424,
   2428436474, 2756734187, 3204031479, 3329325298]

/-- The primes the sieve of `sha256` selects (the first 64 primes; the sieve
marks composites below 313 and the 64th prime is 311). -/
def primes64 : List Nat :=
  [2, 3, 5, 7, 11, 13, 17, 19, 23, 29, 31, 37, 41, 43, 47, 53, 59, 61, 67, 71,
   73, 79, 83, 89, 97, 101, 103, 107, 109, 113, 127, 131, 137, 139, 149, 151,
   157, 163, 167, 173, 179, 181, 191, 193, 197, 199, 211, 223, 227, 229, 233,
   239, 241, 251, 257, 263, 269, 271, 277, 281, 283, 293, 307, 311]

/-- The first 8 primes, whose square-root words seed `sha256.h`. -/
def primes8 : List Nat := [2, 3, 5, 7, 11, 13, 17, 19]

/-- Unsigned value of the JS float expression `(Math.pow(candidate, .5) * 2^32) | 0`
for the first 8 primes: the FIPS 180-4 initial hash words.  `sha256` stores such a
word for all 64 sieved primes but only ever reads the first 8 (`hash.slice(0, 8)`
and `oldHash[i]` for `i < 8`), so for later primes — whose value never reaches any
digest — we model the word as 0. -/
def sqrtWord (p : Nat) : Nat :=
  [1779033703, 3144134277, 1013904242, 2773480762,
   1359893119, 2600822924, 528734635, 1541459225].getD (primes8.indexOf p) 0

/-- Unsigned value of `(Math.pow(candidate, 1/3) * 2^32) | 0` for the sieved
primes: the SHA-256 round constants, which the source itself also ships as the
static table `CryptoEngine.K` (lines 255-264). -/
def cbrtWord (p : Nat) : Nat := K64.getD (primes64.indexOf p) 0

/-- JS assignment `arr[i] = v` on an array with `i ≤ arr.length`: overwrite in
range, append at the end.  Every use below writes at an index `≤ length`. -/
def arraySet (l : List Nat) (i : Nat) (v : Nat) : List Nat :=
  if i < l.length then l.set i v else l ++ [v]

/-- The table-filling loop of `sha256` (lines 312-323): starting from
`primeCounter = k.length`, run candidates 2, 3, 4, … through the local
`isComposite` sieve (which marks multiples `0, c, 2c, … < 313` of each prime)
until `k` holds 64 entries, appending the square-root word to `h` and the
cube-root word to `k` for each prime found.  The `for` loop of the source is
given as fuel the candidate budget 400, more than the 310 candidates the loop
ever examines before `primeCounter` reaches 64. -/
def fillLoop : Nat → Nat → List Nat → List Nat → List Nat → List Nat × List Nat
  | 0, _, _, h, k => (h, k)
  | fuel + 1, candidate, isComposite, h, k =>
    if k.length < 64 then
      if isComposite.contains candidate then
        fillLoop fuel (candidate + 1) isComposite h k
      else
        fillLoop fuel (candidate + 1)
          (isComposite ++ (List.range (312 / candidate + 1)).map (fun m => m * candidate))
          (arraySet h k.length (sqrtWord candidate))
          (arraySet k k.length (cbrtWord candidate))
    else (h, k)

/-- One call's view of the cached tables `sha256.h` / `sha256.k`: reuse what the
cache holds and fill up to 64 entries (lines 310-323). -/
def fillTables (cache : List Nat × List Nat) : List Nat × List Nat :=
  fillLoop 400 2 [] cache.1 cache.2

/-- Padding loop `while (ascii.length % 64 - 56) ascii += '\x00'` (line 326),
entered after the `'\x80'` byte is appended; at most 63 zero bytes are added,
so fuel 64 always suffices. -/
def padZeros : Nat → List Nat → List Nat
  | 0, l => l
  | fuel + 1, l => if l.length % 64 = 56 then l else padZeros fuel (l ++ [0])

/-- The word-packing loop (lines 327-331): big-endian, character `i` lands in
word `i >> 2` at bit offset `((3 - i) % 4) * 8`, which for `i % 4 = 0, 1, 2, 3`
is the shift 24, 16, 8, 0 — i.e. `(3 - i % 4) * 8` — once JS's signed remainder
and 5-bit shift-count masking are unwound. -/
def buildWords (chars : List Nat) : List Nat :=
  (List.range chars.length).foldl
    (fun ws i =>
      let j := chars.getD i 0
      arraySet ws (i / 4) ((ws.getD (i / 4) 0) ||| (j <<< ((3 - i % 4) * 8))))
    []

/-- One iteration of the 64-round compression loop (lines 341-362), acting on
the pair (message-schedule array `w`, working array `hash`).  `hash` is consed
onto, exactly as `hash = [(temp1 + temp2) | 0].concat(hash)` does, so it grows
by one entry per round; only indices 0-7 are ever read. -/
def sha256Round (k : List Nat) (i : Nat) (st : List Nat × List Nat) :
    List Nat × List Nat :=
  let w := st.1
  let hash := st.2
  let w15 := w.getD (i - 15) 0
  let w2 := w.getD (i - 2) 0
  let a := hash.getD 0 0
  let e := hash.getD 4 0
  let wi :=
    if i < 16 then w.getD i 0
    else
      (w.getD (i - 16) 0 +
        (rotr 7 w15 ^^^ rotr 18 w15 ^^^ (w15 >>> 3)) +
        w.getD (i - 7) 0 +
        (rotr 17 w2 ^^^ rotr 19 w2 ^^^ (w2 >>> 10))) % 4294967296
  let temp1 := hash.getD 7 0 +
    (rotr 6 e ^^^ rotr 11 e ^^^ rotr 25 e) +
    ((e &&& hash.getD 5 0) ^^^ ((4294967295 ^^^ e) &&& hash.getD 6 0)) +
    k.getD i 0 + wi
  let temp2 := (rotr 2 a ^^^ rotr 13 a ^^^ rotr 22 a) +
    ((a &&& hash.getD 1 0) ^^^ (a &&& hash.getD 2 0) ^^^
      (hash.getD 1 0 &&& hash.getD 2 0))
  let hash1 := ((temp1 + temp2) % 4294967296) :: hash
  (arraySet w i wi, arraySet hash1 4 ((hash1.getD 4 0 + temp1) % 4294967296))

/-- One 16-word block (lines 335-367): slice the working state to 8 words, run
64 rounds, then add the previous state back in 32-bit wraparound, writing into
the first 8 slots of the (grown) working array as the source's in-place loop
does. -/
def sha256Block (k : List Nat) (w : List Nat) (hash : List Nat) : List Nat :=
  let res := (List.range 64).foldl (fun st i => sha256Round k i st) (w, hash.take 8)
  (List.range 8).foldl
    (fun h i => arraySet h i ((h.getD i 0 + hash.getD i 0) % 4294967296)) res.2

/-- The outer block loop `for (j = 0; j < words.length; j += 16)`; fuel is the
word count, ample since each step consumes 16 words. -/
def sha256Blocks (k : List Nat) : Nat → List Nat → List Nat → List Nat
  | 0, _, hash => hash
  | fuel + 1, words, hash =>
    match words with
    | [] => hash
    | _ :: _ => sha256Blocks k fuel (words.drop 16) (sha256Block k (words.take 16) hash)

/-- Lowercase hex digit, as produced by `Number.prototype.toString(16)`. -/
def hexDigitChar (d : Nat) : Nat := if d < 10 then 48 + d else 87 + d

/-- `((b < 16) ? 0 : '') + b.toString(16)` (line 372): two hex characters for a
byte, zero-padded. -/
def byteToHex (b : Nat) : List Nat :=
  if b < 16 then [48, hexDigitChar b]
  else [hexDigitChar (b / 16), hexDigitChar (b % 16)]

/-- The output loop (lines 369-374): bytes of the 8 state words, big-endian
(`j = 3` down to `0`), hex-encoded. -/
def toHexDigest (hash : List Nat) : List Nat :=
  ((List.range 8).map (fun i =>
    ((List.range 4).map (fun t =>
      byteToHex ((hash.getD i 0 >>> ((3 - t) * 8)) &&& 255))).flatten)).flatten

/-- The body of `CryptoEngine.sha256` after the cached tables are in hand
(lines 325-375).  The character loop's `if (j >> 8) return;` escape — taken at
the first code unit above `0xFF` — is modelled by the `any` guard; when it
fires the function returns nothing (`none`). -/
def sha256Core (hTab kTab : List Nat) (ascii : List Nat) : Option (List Nat) :=
  let asciiBitLength := ascii.length * 8
  let padded := padZeros 64 (ascii ++ [128])
  if padded.any (fun j => j >>> 8 != 0) then none
  else
    let words := buildWords padded ++
      [(asciiBitLength / 4294967296) % 4294967296, asciiBitLength]
    some (toHexDigest (sha256Blocks kTab words.length words hTab))

/-- `CryptoEngine.sha256` with the function-property cache
(`sha256.h`, `sha256.k`) made explicit: the call receives the cache, fills it
if incomplete, and returns the updated cache next to the digest. -/
def sha256WithCache (cache : List Nat × List Nat) (ascii : List Nat) :
    (List Nat × List Nat) × Option (List Nat) :=
  let t := fillTables cache
  (t, sha256Core t.1 t.2 ascii)

/-- `CryptoEngine.sha256` as the caller sees it (a fresh JS environment starts
with `sha256.h`, `sha256.k` undefined, i.e. the empty cache). -/
def CryptoEngine.sha256 (ascii : List Nat) : Option (List Nat) :=
  (sha256WithCache ([], []) ascii).2

/-- Code units of a string literal, for concrete inputs and fixtures. -/
def strCodes (s : String) : List Nat := s.toList.map Char.toNat

/-! ### FairGameEngine (src/mathematics.js lines 400-459) -/

/-- The result object of `generateOutcome` (lines 452-457).  `hash` is an
`Option` because `CryptoEngine.sha256` can return nothing (the JS value is
then `undefined`). -/
structure Outcome where
  slotIndex : Nat
  path : List Nat
  hash : Option (List Nat)
  nonce : Nat
deriving DecidableEq

/-- The engine state: the two seeds and the nonce, plus the string the code
keeps under the `localStorage` key `plinko_nonce` (written by `setItem` on
line 418; the template interpolation stores the decimal rendering). -/
structure FairGameEngine where
  clientSeed : List Nat
  serverSeed : List Nat
  nonce : Nat
  storedNonce : List Nat
deriving DecidableEq

/-- Decimal digits of a JS number interpolation such as shown by the template
string on line 420 and the `setItem` on line 418. -/
def decDigits : Nat → Nat → List Nat
  | 0, _ => []
  | fuel + 1, n => if n < 10 then [48 + n] else decDigits fuel (n / 10) ++ [48 + n % 10]

/-- `${n}` for a non-negative integer `n`. -/
def natToDecString (n : Nat) : List Nat := decDigits (n + 1) n

/-- `parseInt(hexPart, 16)` on the two-character windows cut from a digest
(line 440).  On the lowercase hexadecimal characters `sha256` produces — see
the digest-shape theorem below — this is exactly JS `parseInt`; `parseInt`
also accepts uppercase digits, handled here too, and the remaining branch is
unreachable from a digest. -/
def hexCharVal (c : Nat) : Nat :=
  if 48 ≤ c ∧ c ≤ 57 then c - 48
  else if 97 ≤ c ∧ c ≤ 102 then c - 87
  else if 65 ≤ c ∧ c ≤ 70 then c - 55
  else 0

/-- Value of a parsed hex window. -/
def parseIntHex (l : List Nat) : Nat := l.foldl (fun acc c => acc * 16 + hexCharVal c) 0

/-- The decision loop of `generateOutcome` (lines 435-448), returning the
`path` array and the running `directionSum` it accumulates: for each row `i`,
cut `hash.substr((i * 2) % hash.length, 2)`, parse it base 16, and push 1 when
the value exceeds 127, else 0. -/
def pathLoop (hash : List Nat) (rows : Nat) : List Nat × Nat :=
  (List.range rows).foldl
    (fun acc i =>
      let index := (i * 2) % hash.length
      let hexPart := (hash.drop index).take 2
      let value := parseIntHex hexPart
      let dir := if 127 < value then 1 else 0
      (acc.1 ++ [dir], acc.2 + dir))
    ([], 0)

/-- `FairGameEngine.generateOutcome` (lines 416-458).  The nonce is
incremented and written to storage first; then the digest of
`serverSeed + clientSeed + ":" + nonce` is taken and mapped to a path and a
slot index.  When `sha256` returns nothing and `rows > 0`, the JS loop body
crashes reading `hash.length`, after the nonce was already persisted: that
outcome is `none` while the state update survives.  With `rows = 0` the loop
never touches `hash` and the round returns normally. -/
def generateOutcome (st : FairGameEngine) (rows : Nat) :
    FairGameEngine × Option Outcome :=
  let nonce := st.nonce + 1
  let st1 : FairGameEngine :=
    { st with nonce := nonce, storedNonce := natToDecString nonce }
  let currentSeed := st.clientSeed ++ [58] ++ natToDecString nonce
  let outcome : Option Outcome :=
    match CryptoEngine.sha256 (st.serverSeed ++ currentSeed) with
    | some hexDigest =>
      let pr := pathLoop hexDigest rows
      some { slotIndex := pr.2, path := pr.1, hash := some hexDigest, nonce := nonce }
    | none =>
      if rows = 0 then some { slotIndex := 0, path := [], hash := none, nonce := nonce }
      else none
  (st1, outcome)

/-- State after `n` sequential `generateOutcome` calls. -/
def stateAfter (st : FairGameEngine) (rows : Nat) : Nat → FairGameEngine
  | 0 => st
  | n + 1 => (generateOutcome (stateAfter st rows n) rows).1

/-- The nonce recorded by each of the first `n` sequential calls. -/
def noncesOf (st : FairGameEngine) (rows n : Nat) : List Nat :=
  (List.range n).map (fun i => (stateAfter st rows (i + 1)).nonce)

/-- The engine state a fresh session starts from (constructor lines 401-405
with empty `localStorage`): the default seeds and nonce 0. -/
def initialEngine : FairGameEngine :=
  { clientSeed := strCodes (r"ClientSeed123")
    serverSeed := strCodes (r"ServerSeedHash...")
    nonce := 0
    storedNonce := [] }

/-! ### PayTables and ProbabilityEngine (src/mathematics.js lines 469-602) -/

/-- The three risk keys of the configuration. -/
inductive Risk | low | normal | high
deriving DecidableEq

/-- The static multiplier matrix `PayTables` (lines 469-534), with JS decimal
literals read as exact rationals.  Row counts outside 8-16 have no key in the
object; such a lookup is modelled as the empty list. -/
def PayTables (rows : Nat) (risk : Risk) : List ℚ :=
  match rows, risk with
  | 8, .low => [5.6, 2.1, 1.1, 1, 0.5, 1, 1.1, 2.1, 5.6]
  | 8, .normal => [13, 3, 1.3, 0.7, 0.4, 0.7, 1.3, 3, 13]
  | 8, .high => [29, 4, 1.5, 0.3, 0.2, 0.3, 1.5, 4, 29]
  | 9, .low => [5.6, 2, 1.6, 1, 0.7, 0.7, 1, 1.6, 2, 5.6]
  | 9, .normal => [18, 4, 1.7, 0.9, 0.5, 0.5, 0.9, 1.7, 4, 18]
  | 9, .high => [43, 7, 2, 0.6, 0.2, 0.2, 0.6, 2, 7, 43]
  | 10, .low => [8.9, 3, 1.4, 1.1, 1, 0.5, 1, 1.1, 1.4, 3, 8.9]
  | 10, .normal => [22, 5, 2, 1.4, 0.6, 0.4, 0.6, 1.4, 2, 5, 22]
  | 10, .high => [76, 10, 3, 0.9, 0.3, 0.2, 0.3, 0.9, 3, 10, 76]
  | 11, .low => [8.4, 3, 1.9, 1.3, 1, 0.7, 0.7, 1, 1.3, 1.9, 3, 8.4]
  | 11, .normal => [26, 6, 3, 1.8, 1, 0.5, 0.5, 1, 1.8, 3, 6, 26]
  | 11, .high => [120, 14, 5.2, 1.4, 0.4, 0.2, 0.2, 0.4, 1.4, 5.2, 14, 120]
  | 12, .low => [10, 3, 1.6, 1.4, 1.1, 1, 0.5, 1, 1.1, 1.4, 1.6, 3, 10]
  | 12, .normal => [33, 11, 4, 2, 1.1, 0.6, 0.3, 0.6, 1.1, 2, 4, 11, 33]
  | 12, .high => [170, 24, 8.1, 2, 0.7, 0.2, 0.2, 0.2, 0.7, 2, 8.1, 24, 170]
  | 13, .low => [8.1, 4, 3, 1.9, 1.2, 0.9, 0.7, 0.7, 0.9, 1.2, 1.9, 3, 4, 8.1]
  | 13, .normal => [42, 13, 6, 3, 1.3, 0.7, 0.4, 0.4, 0.7, 1.3, 3, 6, 13, 42]
  | 13, .high => [260, 37, 11, 4, 1, 0.2, 0.2, 0.2, 0.2, 1, 4, 11, 37, 260]
  | 14, .low => [7.1, 4, 1.9, 1.4, 1.3, 1.1, 1, 0.5, 1, 1.1, 1.3, 1.4, 1.9, 4, 7.1]
  | 14, .normal => [58, 15, 7, 4, 1.9, 1, 0.5, 0.2, 0.5, 1, 1.9, 4, 7, 15, 58]
  | 14, .high => [420, 56, 18, 5, 1.9, 0.3, 0.2, 0.2, 0.2, 0.3, 1.9, 5, 18, 56, 420]
  | 15, .low => [15, 8, 3, 2, 1.5, 1.1, 1, 0.7, 0.7, 1, 1.1, 1.5, 2, 3, 8, 15]
  | 15, .normal => [88, 18, 11, 5, 3, 1.3, 0.5, 0.3, 0.3, 0.5, 1.3, 3, 5, 11, 18, 88]
  | 15, .high => [620, 83, 27, 8, 3, 0.5, 0.2, 0.2, 0.2, 0.2, 0.5, 3, 8, 27, 83, 620]
  | 16, .low => [16, 9, 2, 1.4, 1.4, 1.2, 1.1, 1, 0.5, 1, 1.1, 1.2, 1.4, 1.4, 2, 9, 16]
  | 16, .normal => [110, 41, 10, 5, 3, 1.5, 1, 0.5, 0.3, 0.5, 1, 1.5, 3, 5, 10, 41, 110]
  | 16, .high => [1000, 130, 26, 9, 4, 2, 0.2, 0.2, 0.2, 0.2, 0.2, 2, 4, 9, 26, 130, 1000]
  | _, _ => []

/-- The row counts configured in `PayTables` and walked by
`validateAllTables` (`for (let r = 8; r <= 16; r++)`). -/
def supportedRowCounts : List Nat := [8, 9, 10, 11, 12, 13, 14, 15, 16]

/-- The risk keys walked by `validateAllTables`. -/
def allRisks : List Risk := [.low, .normal, .high]

/-- `ProbabilityEngine.getPascalRow` (lines 549-555):
`line.push(line[k] * (rows - k) / (k + 1))` starting from `[1]`.  JS numbers
are modelled as exact rationals; every entry is in fact a binomial
coefficient, well inside double precision for the supported row counts. -/
def getPascalRow (rows : Nat) : List ℚ :=
  (List.range rows).foldl
    (fun line k => line ++ [line.getD k 0 * ((rows : ℚ) - (k : ℚ)) / ((k : ℚ) + 1)])
    [1]

/-- `ProbabilityEngine.getProbabilities` (lines 560-565). -/
def getProbabilities (rows : Nat) : List ℚ :=
  (getPascalRow rows).map (fun val => val / 2 ^ rows)

/-- The body of `ProbabilityEngine.calculateRTP` (lines 570-585), abstracted
over the table it reads so that its behaviour on a malformed configuration is
expressible; the source reads the global `PayTables`.  On a length mismatch it
logs `console.error` and returns the fallback value 0 — at call time, not at
load time. -/
def calculateRTPWith (tables : Nat → Risk → List ℚ) (rows : Nat) (risk : Risk) : ℚ :=
  let multipliers := tables rows risk
  let probabilities := getProbabilities rows
  if multipliers.length ≠ probabilities.length then 0
  else
    ((List.range multipliers.length).foldl
      (fun ev i => ev + multipliers.getD i 0 * probabilities.getD i 0) 0) * 100

/-- `ProbabilityEngine.calculateRTP` as shipped: the body above applied to the
global `PayTables`. -/
def calculateRTP (rows : Nat) (risk : Risk) : ℚ :=
  calculateRTPWith PayTables rows risk

/-- `ProbabilityEngine.validateAllTables` (lines 590-601): for every
combination, the computed RTP and the `rtp <= 99` verdict the console line
reports (`OK` when true, `HIGH` when false). -/
def validateAllTables : List (Nat × Risk × ℚ × Bool) :=
  supportedRowCounts.flatMap
    (fun r => allRisks.map (fun risk =>
      let rtp := calculateRTP r risk
      (r, risk, rtp, decide (rtp ≤ 99))))

/-! ### Helper layer: evaluated cache tables, loop characterisations, digest shape -/

/-- The value the filling loop leaves in (`sha256.h`, `sha256.k`): the 8
initial hash words (then the modelled-as-0 entries `sha256` never reads) and
the 64 round constants. -/
def cachedTables : List Nat × List Nat :=
  ([1779033703, 3144134277, 1013904242, 2773480762,
    1359893119, 2600822924, 528734635, 1541459225] ++ List.replicate 56 0, K64)

set_option maxRecDepth 100000 in
lemma fillTables_empty : fillTables (([] : List Nat), ([] : List Nat)) = cachedTables := by
  decide

set_option maxRecDepth 100000 in
lemma fillTables_idem : fillTables cachedTables = cachedTables := by
  decide

lemma sha256_as_core (ascii : List Nat) :
    CryptoEngine.sha256 ascii = sha256Core cachedTables.1 cachedTables.2 ascii := by
  show sha256Core (fillTables ([], [])).1 (fillTables ([], [])).2 ascii = _
  rw [fillTables_empty]

/-- The decision `generateOutcome` pushes for row `i`, as a function of the
digest. -/
def decision (hash : List Nat) (i : Nat) : Nat :=
  if 127 < parseIntHex ((hash.drop ((i * 2) % hash.length)).take 2) then 1 else 0

lemma pathLoop_spec (h : List Nat) (rows : Nat) :
    pathLoop h rows =
      ((List.range rows).map (decision h), ((List.range rows).map (decision h)).sum) := by
  induction rows with
  | zero => rfl
  | succ n ih =>
    simp only [pathLoop] at ih ⊢
    rw [List.range_succ, List.foldl_append, List.foldl_cons, List.foldl_nil, ih]
    simp [decision, List.sum_append]

lemma sum_le_length (l : List Nat) (h : ∀ x ∈ l, x ≤ 1) : l.sum ≤ l.length := by
  induction l with
  | nil => simp
  | cons a t ih =>
    have ha := h a (by simp)
    have ht := ih (fun x hx => h x (by simp [hx]))
    simp only [List.sum_cons, List.length_cons]
    omega

lemma byteToHex_length (b : Nat) : (byteToHex b).length = 2 := by
  unfold byteToHex
  split <;> rfl

/-- A lowercase hexadecimal character code. -/
def isHexLowerChar (c : Nat) : Prop := (48 ≤ c ∧ c ≤ 57) ∨ (97 ≤ c ∧ c ≤ 102)

instance (c : Nat) : Decidable (isHexLowerChar c) := by
  unfold isHexLowerChar
  infer_instance

lemma byteToHex_chars (b : Nat) (hb : b ≤ 255) :
    ∀ c ∈ byteToHex b, isHexLowerChar c := by
  intro c hc
  have h16 : b % 16 < 16 := Nat.mod_lt _ (by omega)
  have hdiv : b / 16 < 16 := by omega
  unfold byteToHex hexDigitChar at hc
  unfold isHexLowerChar
  split at hc <;>
    simp only [List.mem_cons, List.not_mem_nil, or_false] at hc <;>
    rcases hc with rfl | rfl <;>
    first
      | omega
      | (split <;> omega)

lemma toHexDigest_length (hash : List Nat) : (toHexDigest hash).length = 64 := by
  simp [toHexDigest, byteToHex_length, Function.comp_def, List.map_const',
    List.sum_replicate]

lemma toHexDigest_chars (hash : List Nat) :
    ∀ c ∈ toHexDigest hash, isHexLowerChar c := by
  intro c hc
  unfold toHexDigest at hc
  simp only [List.mem_flatten, List.mem_map, List.mem_range] at hc
  obtain ⟨inner, ⟨i, hi, rfl⟩, hc⟩ := hc
  simp only [List.mem_flatten, List.mem_map, List.mem_range] at hc
  obtain ⟨seg, ⟨t, ht, rfl⟩, hc⟩ := hc
  exact byteToHex_chars _ Nat.and_le_right c hc

lemma mem_padZeros (fuel : Nat) (l : List Nat) :
    ∀ x ∈ padZeros fuel l, x ∈ l ∨ x = 0 := by
  induction fuel generalizing l with
  | zero => intro x hx; exact Or.inl hx
  | succ n ih =>
    intro x hx
    unfold padZeros at hx
    split at hx
    · exact Or.inl hx
    · rcases ih (l ++ [0]) x hx with h | h
      · rcases List.mem_append.mp h with h | h
        · exact Or.inl h
        · simp at h; exact Or.inr h
      · exact Or.inr h

lemma padZeros_mem_of_mem (fuel : Nat) (l : List Nat) :
    ∀ x ∈ l, x ∈ padZeros fuel l := by
  induction fuel generalizing l with
  | zero => intro x hx; exact hx
  | succ n ih =>
    intro x hx
    unfold padZeros
    split
    · exact hx
    · exact ih (l ++ [0]) x (List.mem_append.mpr (Or.inl hx))

/-- Either possible decision value. -/
lemma decision_cases (h : List Nat) (i : Nat) : decision h i = 0 ∨ decision h i = 1 := by
  unfold decision
  split
  · exact Or.inr rfl
  · exact Or.inl rfl

/-- The digest of the spec's concrete scenario
`sha256("ServerSeedHash...ClientSeed123:1")`. -/
def fixtureDigest : List Nat :=
  strCodes (r"34d52279e46def5f5d5e156ef3d985d3dfa69fd532a507f7e7c69a101725597b")

/-- The outcome of the spec's concrete scenario: default seeds, nonce 1,
rowCount 14. -/
def fixtureOutcome : Outcome :=
  { slotIndex := 5
    path := [0, 1, 0, 0, 1, 0, 1, 0, 0, 0, 0, 0, 1, 1]
    hash := some fixtureDigest
    nonce := 1 }

set_option maxRecDepth 100000 in
lemma fixture_eval : (generateOutcome initialEngine 14).2 = some fixtureOutcome := by
  simp only [generateOutcome, sha256_as_core]
  decide

/-- The nonce a successful round reports is the incremented one. -/
lemma generateOutcome_some_nonce (st : FairGameEngine) (rows : Nat) :
    ∀ o, (generateOutcome st rows).2 = some o → o.nonce = st.nonce + 1 := by
  intro o ho
  simp only [generateOutcome] at ho
  split at ho
  · injection ho with h
    subst h
    rfl
  · split at ho
    · injection ho with h
      subst h
      rfl
    · exact Option.noConfusion ho

lemma stateAfter_nonce (st : FairGameEngine) (rows : Nat) :
    ∀ n, (stateAfter st rows n).nonce = st.nonce + n := by
  intro n
  induction n with
  | zero => rfl
  | succ m ih =>
    show (generateOutcome (stateAfter st rows m) rows).1.nonce = st.nonce + (m + 1)
    have : (generateOutcome (stateAfter st rows m) rows).1.nonce
        = (stateAfter st rows m).nonce + 1 := rfl
    omega

/-! ### C1: determinism of `generateOutcome`; purity of `sha256` under caching -/

/-- C1.  `generateOutcome` is a pure function of the engine state and row count,
so two computations from identical state agree bit for bit; and
`CryptoEngine.sha256` returns the same digest on a repeat call even though the
first call populated the cached static tables `sha256.h` / `sha256.k`: a call
running on the cache left behind by any earlier call produces the same digest
and the same tables as a call on a fresh cache. -/
theorem generateOutcome_deterministic_and_sha256_cache_pure
    (st : FairGameEngine) (rows : Nat) (prev input : List Nat) :
    generateOutcome st rows = generateOutcome st rows ∧
    (sha256WithCache (sha256WithCache ([], []) prev).1 input).2 = CryptoEngine.sha256 input ∧
    (sha256WithCache (sha256WithCache ([], []) prev).1 input).1 = (sha256WithCache ([], []) input).1 := by
  have hfirst : (sha256WithCache ([], []) prev).1 = cachedTables := fillTables_empty
  refine ⟨rfl, ?_, ?_⟩
  · show sha256Core (fillTables (sha256WithCache ([], []) prev).1).1
        (fillTables (sha256WithCache ([], []) prev).1).2 input = _
    rw [hfirst, fillTables_idem, sha256_as_core]
  · show fillTables (sha256WithCache ([], []) prev).1 = fillTables ([], [])
    rw [hfirst, fillTables_idem, fillTables_empty]

/-! ### C2: the digest is recomputable from (serverSeed, clientSeed, nonce) -/

/-- C2.  Every outcome's digest is `sha256(serverSeed + clientSeed + ":" + n)`
with `n` the incremented nonce, and the slot index is recomputed from the
digest and row count alone by the decision loop — all a third party needs is
(serverSeed, clientSeed, nonce, rowCount). -/
theorem generateOutcome_digest_recomputable
    (st : FairGameEngine) (rows : Nat) (o : Outcome)
    (ho : (generateOutcome st rows).2 = some o) :
    o.hash = CryptoEngine.sha256
      (st.serverSeed ++ st.clientSeed ++ [58] ++ natToDecString (st.nonce + 1)) ∧
    o.nonce = st.nonce + 1 ∧
    (∀ d, o.hash = some d →
      o.path = (pathLoop d rows).1 ∧ o.slotIndex = (pathLoop d rows).2) := by
  have hnonce := generateOutcome_some_nonce st rows o ho
  have hassoc : st.serverSeed ++ st.clientSeed ++ [58] ++ natToDecString (st.nonce + 1)
      = st.serverSeed ++ (st.clientSeed ++ [58] ++ natToDecString (st.nonce + 1)) := by
    simp [List.append_assoc]
  refine ⟨?_, hnonce, ?_⟩
  · simp only [generateOutcome] at ho
    split at ho
    next hd heq =>
      injection ho with h
      subst h
      rw [hassoc, heq]
    next heq =>
      split at ho
      · injection ho with h
        subst h
        rw [hassoc, heq]
      · exact Option.noConfusion ho
  · intro d hd
    simp only [generateOutcome] at ho
    split at ho
    next hd2 heq =>
      injection ho with h
      subst h
      simp only [Outcome.hash] at hd
      injection hd with h2
      subst h2
      exact ⟨rfl, rfl⟩
    next heq =>
      split at ho
      · injection ho with h
        subst h
        exact Option.noConfusion hd
      · exact Option.noConfusion ho

/-- Witness for C2 at the concrete scenario. -/
theorem generateOutcome_digest_recomputable_witness :
    fixtureOutcome.hash = CryptoEngine.sha256
      (initialEngine.serverSeed ++ initialEngine.clientSeed ++ [58] ++
        natToDecString (initialEngine.nonce + 1)) ∧
    fixtureOutcome.nonce = initialEngine.nonce + 1 :=
  ⟨(generateOutcome_digest_recomputable initialEngine 14 fixtureOutcome fixture_eval).1,
   (generateOutcome_digest_recomputable initialEngine 14 fixtureOutcome fixture_eval).2.1⟩

/-! ### C3: FIPS 180-4 known-answer vectors -/

/-- C3.  `CryptoEngine.sha256` reproduces the published SHA-256 digests of the
empty string, of `abc`, and of the standard 56-byte message whose padded form
spans two 64-byte blocks. -/
theorem sha256_known_answer_vectors :
    CryptoEngine.sha256 (strCodes (r"")) =
      some (strCodes (r"e3b0c44298fc1c149afbf4c8996fb92427ae41e4649b934ca495991b7852b855")) ∧
    CryptoEngine.sha256 (strCodes (r"abc")) =
      some (strCodes (r"ba7816bf8f01cfea414140de5dae2223b00361a396177a9cb410ff61f20015ad")) ∧
    (strCodes (r"abcdbcdecdefdefgefghfghighijhijkijkljklmklmnlmnomnopnopq")).length = 56 ∧
    (padZeros 64 (strCodes (r"abcdbcdecdefdefgefghfghighijhijkijkljklmklmnlmnomnopnopq") ++ [128])).length + 8 = 128 ∧
    CryptoEngine.sha256 (strCodes (r"abcdbcdecdefdefgefghfghighijhijkijkljklmklmnlmnomnopnopq")) =
      some (strCodes (r"248d6a61d20638b8e5c026930c3e6039a33ce45964ff2167f6ecedd419db06c1")) := by
  refine ⟨?_, ?_, by decide, by decide, ?_⟩ <;>
    (rw [sha256_as_core]; decide)

/-! ### C4: the decision rule applied to each digest window -/

/-- C4.  For a 64-hex-character digest, decision `i` reads the two characters
at offset `(i * 2) % 64`, parses them base 16, and is 1 exactly when the value
exceeds 127; the returned sum is the sum of the decisions and one decision is
taken per row. -/
theorem outcome_decision_rule (d : List Nat) (rows : Nat) (hd : d.length = 64) :
    (∀ i, i < rows →
      (pathLoop d rows).1.getD i 0 =
        if 127 < parseIntHex ((d.drop ((i * 2) % 64)).take 2) then 1 else 0) ∧
    (pathLoop d rows).2 = (pathLoop d rows).1.sum ∧
    (pathLoop d rows).1.length = rows := by
  rw [pathLoop_spec]
  refine ⟨?_, rfl, by simp⟩
  intro i hi
  rw [List.getD_eq_getElem?_getD, List.getElem?_map, List.getElem?_range hi]
  simp [decision, hd]

/-- Witness for C4 on the fixture digest. -/
theorem outcome_decision_rule_witness :
    fixtureDigest.length = 64 ∧
    (pathLoop fixtureDigest 3).1.getD 2 0 =
      (if 127 < parseIntHex ((fixtureDigest.drop ((2 * 2) % 64)).take 2) then 1 else 0) ∧
    (pathLoop fixtureDigest 3).2 = (pathLoop fixtureDigest 3).1.sum :=
  ⟨by decide,
   (outcome_decision_rule fixtureDigest 3 (by decide)).1 2 (by decide),
   (outcome_decision_rule fixtureDigest 3 (by decide)).2.1⟩

/-! ### C5: shape of every outcome -/

/-- C5.  Every outcome has a path of length `rows` made of 0s and 1s, its slot
index is the path sum (hence at most `rows`), and `rows = 0` yields an empty
path and slot 0 without error. -/
theorem outcome_path_shape (st : FairGameEngine) (rows : Nat) :
    (∀ o, (generateOutcome st rows).2 = some o →
      o.path.length = rows ∧
      (∀ x ∈ o.path, x = 0 ∨ x = 1) ∧
      o.slotIndex = o.path.sum ∧
      o.slotIndex ≤ rows) ∧
    ((generateOutcome st 0).2).isSome = true ∧
    (∀ o, (generateOutcome st 0).2 = some o → o.path = [] ∧ o.slotIndex = 0) := by
  have hmain : ∀ (rws : Nat) o, (generateOutcome st rws).2 = some o →
      o.path.length = rws ∧ (∀ x ∈ o.path, x = 0 ∨ x = 1) ∧
      o.slotIndex = o.path.sum ∧ o.slotIndex ≤ rws := by
    intro rws o ho
    simp only [generateOutcome] at ho
    split at ho
    next hd heq =>
      injection ho with h
      subst h
      rw [pathLoop_spec]
      refine ⟨by simp, ?_, rfl, ?_⟩
      · intro x hx
        simp only [List.mem_map, List.mem_range] at hx
        obtain ⟨i, _, rfl⟩ := hx
        exact decision_cases hd i
      · have hle := sum_le_length ((List.range rws).map (decision hd)) ?_
        · simpa using hle
        · intro x hx
          simp only [List.mem_map, List.mem_range] at hx
          obtain ⟨i, _, rfl⟩ := hx
          rcases decision_cases hd i with h | h <;> omega
    next heq =>
      split at ho
      next hr =>
        injection ho with h
        subst h
        subst hr
        exact ⟨rfl, by simp, rfl, by simp⟩
      next => exact Option.noConfusion ho
  refine ⟨hmain rows, ?_, ?_⟩
  · simp only [generateOutcome]
    split
    · rfl
    · simp
  · intro o ho
    have h := hmain 0 o ho
    have hnil : o.path = [] := List.eq_nil_of_length_eq_zero h.1
    refine ⟨hnil, ?_⟩
    rw [h.2.2.1, hnil]
    rfl

/-- Witness for C5 at the concrete scenario. -/
theorem outcome_path_shape_witness :
    fixtureOutcome.path.length = 14 ∧
    fixtureOutcome.slotIndex = fixtureOutcome.path.sum ∧
    fixtureOutcome.slotIndex ≤ 14 :=
  ⟨((outcome_path_shape initialEngine 14).1 fixtureOutcome fixture_eval).1,
   ((outcome_path_shape initialEngine 14).1 fixtureOutcome fixture_eval).2.2.1,
   ((outcome_path_shape initialEngine 14).1 fixtureOutcome fixture_eval).2.2.2⟩

/-! ### C6: nonce increment, persistence, and the sequence across calls -/

/-- C6.  Each call advances the nonce by exactly one and stores its decimal
rendering in the persisted slot before anything else can fail (the state
update exists in both the success and the failure branch); a successful round
reports exactly the incremented nonce; and across `n` sequential calls the
recorded nonces are `st.nonce + 1, …, st.nonce + n` — strictly increasing, no
gaps, no repeats. -/
theorem nonce_strictly_increasing (st : FairGameEngine) (rows n : Nat) :
    (generateOutcome st rows).1.nonce = st.nonce + 1 ∧
    (generateOutcome st rows).1.storedNonce = natToDecString (st.nonce + 1) ∧
    (∀ o, (generateOutcome st rows).2 = some o → o.nonce = st.nonce + 1) ∧
    (stateAfter st rows n).nonce = st.nonce + n ∧
    noncesOf st rows n = (List.range n).map (fun i => st.nonce + (i + 1)) ∧
    List.Pairwise (· < ·) (noncesOf st rows n) := by
  have hmap : noncesOf st rows n = (List.range n).map (fun i => st.nonce + (i + 1)) := by
    unfold noncesOf
    refine List.map_congr_left ?_
    intro i _
    rw [stateAfter_nonce]
  refine ⟨rfl, rfl, generateOutcome_some_nonce st rows, stateAfter_nonce st rows n, hmap, ?_⟩
  rw [hmap, List.pairwise_map]
  have := List.pairwise_lt_range n
  exact this.imp (fun h => by omega)

/-- Witness for C6 at the concrete scenario. -/
theorem nonce_strictly_increasing_witness :
    (generateOutcome initialEngine 14).1.nonce = initialEngine.nonce + 1 ∧
    fixtureOutcome.nonce = initialEngine.nonce + 1 :=
  ⟨(nonce_strictly_increasing initialEngine 14 0).1,
   (nonce_strictly_increasing initialEngine 14 0).2.2.1 fixtureOutcome fixture_eval⟩

/-! ### C7: the 99% expected-return ceiling (violated by the shipped tables) -/

/-- The Pascal-row loop produces exactly the binomial coefficients. -/
lemma getPascalRow_eq (n : Nat) :
    getPascalRow n = (List.range (n + 1)).map (fun k => (n.choose k : ℚ)) := by
  have haux : ∀ m, m ≤ n →
      (List.range m).foldl
        (fun (line : List ℚ) (k : ℕ) =>
          line ++ [line.getD k 0 * ((n : ℚ) - (k : ℚ)) / ((k : ℚ) + 1)]) [1]
        = (List.range (m + 1)).map (fun k => (n.choose k : ℚ)) := by
    intro m
    induction m with
    | zero =>
      intro _
      rw [show List.range 1 = [0] from rfl]
      simp
    | succ j ih =>
      intro hm
      have hj : j ≤ n := by omega
      rw [List.range_succ, List.foldl_append, List.foldl_cons, List.foldl_nil, ih hj]
      have hget : ((List.range (j + 1)).map (fun k => (n.choose k : ℚ))).getD j 0
          = (n.choose j : ℚ) := by
        rw [List.getD_eq_getElem?_getD, List.getElem?_map,
          List.getElem?_range (by omega : j < j + 1)]
        rfl
      rw [hget]
      have hsub : ((n - j : ℕ) : ℚ) = (n : ℚ) - (j : ℚ) := Nat.cast_sub hj
      have hnat : n.choose (j + 1) * (j + 1) = n.choose j * (n - j) :=
        Nat.choose_succ_right_eq n j
      have hcast : (n.choose (j + 1) : ℚ) * ((j : ℚ) + 1)
          = (n.choose j : ℚ) * ((n : ℚ) - (j : ℚ)) := by
        have h2 : ((n.choose (j + 1) * (j + 1) : ℕ) : ℚ)
            = ((n.choose j * (n - j) : ℕ) : ℚ) := by rw [hnat]
        push_cast [hsub] at h2
        linarith [h2]
      have hstep : (n.choose j : ℚ) * ((n : ℚ) - (j : ℚ)) / ((j : ℚ) + 1)
          = (n.choose (j + 1) : ℚ) := by
        rw [div_eq_iff (by positivity : ((j : ℚ) + 1) ≠ 0)]
        linarith [hcast]
      rw [hstep, show List.range (j + 1 + 1) = List.range (j + 1) ++ [j + 1] from
        List.range_succ (j + 1), List.map_append]
      simp
  unfold getPascalRow
  exact haux n le_rfl

/-- The probability vector is the binomial distribution over `2 ^ rows`. -/
lemma getProbabilities_eq (n : Nat) :
    getProbabilities n = (List.range (n + 1)).map (fun k => (n.choose k : ℚ) / 2 ^ n) := by
  unfold getProbabilities
  rw [getPascalRow_eq, List.map_map]
  rfl

/-- The accumulation loop of `calculateRTP` is the sum of the products. -/
lemma rtp_foldl_eq (m p : List ℚ) (n : Nat) :
    List.foldl (fun ev i => ev + m.getD i 0 * p.getD i 0) 0 (List.range n)
      = ((List.range n).map (fun i => m.getD i 0 * p.getD i 0)).sum := by
  induction n with
  | zero => rfl
  | succ j ih =>
    rw [List.range_succ, List.foldl_append, List.foldl_cons, List.foldl_nil, ih,
      List.map_append, List.sum_append]
    simp

/-- C7 (refuting evaluation).  At rowCount 8, risk high, the expected return
computed by the code — which does equal the claim's formula
`100 · Σ multiplier(i) · C(8, i) / 2 ^ 8` — is `1585/16 = 99.0625 > 99`, so
`validateAllTables` reports that combination with the failed (`false`,
i.e. `HIGH`) verdict, contradicting the claim that no combination exceeds the
ceiling. -/
theorem rtp_ceiling_violated :
    calculateRTP 8 Risk.high =
      100 * ((List.range 9).map
        (fun i => (PayTables 8 Risk.high).getD i 0 * ((Nat.choose 8 i : ℚ) / 2 ^ 8))).sum ∧
    calculateRTP 8 Risk.high = 1585 / 16 ∧
    ¬ calculateRTP 8 Risk.high ≤ 99 ∧
    validateAllTables.getD 2 (0, Risk.low, 0, true) =
      (8, Risk.high, calculateRTP 8 Risk.high, false) := by
  have hlen : (getProbabilities 8).length = 9 := by
    rw [getProbabilities_eq]
    simp
  have hmain : calculateRTP 8 Risk.high =
      ((List.range 9).map
        (fun i => (PayTables 8 Risk.high).getD i 0 * ((Nat.choose 8 i : ℚ) / 2 ^ 8))).sum * 100 := by
    simp only [calculateRTP, calculateRTPWith]
    rw [if_neg (by rw [show (PayTables 8 Risk.high).length = 9 from rfl, hlen]; simp)]
    rw [show (PayTables 8 Risk.high).length = 9 from rfl]
    rw [rtp_foldl_eq (PayTables 8 Risk.high) (getProbabilities 8) 9]
    refine congrArg (fun l : List ℚ => l.sum * 100) (List.map_congr_left ?_)
    intro i hi
    rw [List.mem_range] at hi
    rw [getProbabilities_eq, List.getD_eq_getElem?_getD, List.getD_eq_getElem?_getD,
      List.getElem?_map, List.getElem?_range (by omega : i < 8 + 1)]
    rfl
  have hval : calculateRTP 8 Risk.high = 1585 / 16 := by
    rw [hmain, show List.range 9 = [0, 1, 2, 3, 4, 5, 6, 7, 8] from rfl]
    simp only [List.map_cons, List.map_nil, List.sum_cons, List.sum_nil]
    simp only [show (PayTables 8 Risk.high).getD 0 0 = (29 : ℚ) from rfl,
      show (PayTables 8 Risk.high).getD 1 0 = (4 : ℚ) from rfl,
      show (PayTables 8 Risk.high).getD 2 0 = (1.5 : ℚ) from rfl,
      show (PayTables 8 Risk.high).getD 3 0 = (0.3 : ℚ) from rfl,
      show (PayTables 8 Risk.high).getD 4 0 = (0.2 : ℚ) from rfl,
      show (PayTables 8 Risk.high).getD 5 0 = (0.3 : ℚ) from rfl,
      show (PayTables 8 Risk.high).getD 6 0 = (1.5 : ℚ) from rfl,
      show (PayTables 8 Risk.high).getD 7 0 = (4 : ℚ) from rfl,
      show (PayTables 8 Risk.high).getD 8 0 = (29 : ℚ) from rfl,
      show Nat.choose 8 0 = 1 by decide, show Nat.choose 8 1 = 8 by decide,
      show Nat.choose 8 2 = 28 by decide, show Nat.choose 8 3 = 56 by decide,
      show Nat.choose 8 4 = 70 by decide, show Nat.choose 8 5 = 56 by decide,
      show Nat.choose 8 6 = 28 by decide, show Nat.choose 8 7 = 8 by decide,
      show Nat.choose 8 8 = 1 by decide]
    norm_num
  have hgt : ¬ calculateRTP 8 Risk.high ≤ 99 := by
    rw [hval]
    norm_num
  refine ⟨by rw [hmain]; exact mul_comm _ _, hval, hgt, ?_⟩
  have hrfl : validateAllTables.getD 2 (0, Risk.low, 0, true) =
      (8, Risk.high, calculateRTP 8 Risk.high, decide (calculateRTP 8 Risk.high ≤ 99)) := rfl
  rw [hrfl, decide_eq_false hgt]

/-! ### C8: payout-table cardinality -/

/-- C8.  Every configured `(rowCount, risk)` entry of `PayTables` has exactly
`rowCount + 1` multipliers. -/
theorem paytable_cardinality :
    ∀ r ∈ supportedRowCounts, ∀ risk ∈ allRisks, (PayTables r risk).length = r + 1 := by
  decide

/-- Witness for C8 at a concrete combination. -/
theorem paytable_cardinality_witness : (PayTables 8 Risk.low).length = 8 + 1 :=
  paytable_cardinality 8 (by decide) Risk.low (by decide)

/-! ### C9: silent abort on non-Latin-1 input, hex digest otherwise -/

/-- C9.  `CryptoEngine.sha256` returns nothing whenever some code unit of the
input exceeds 0xFF, and on input made of code units at most 0xFF it returns a
64-character lowercase hexadecimal digest. -/
theorem sha256_rejects_nonlatin1_else_hex (input : List Nat) :
    ((∃ c ∈ input, 256 ≤ c) → CryptoEngine.sha256 input = none) ∧
    ((∀ c ∈ input, c ≤ 255) →
      ∃ d, CryptoEngine.sha256 input = some d ∧ d.length = 64 ∧
        ∀ c ∈ d, isHexLowerChar c) := by
  constructor
  · rintro ⟨c, hc, hcge⟩
    rw [sha256_as_core]
    unfold sha256Core
    have hmem : c ∈ padZeros 64 (input ++ [128]) :=
      padZeros_mem_of_mem _ _ c (List.mem_append.mpr (Or.inl hc))
    have hbit : (c >>> 8 != 0) = true := by
      have : c >>> 8 ≠ 0 := by
        rw [Nat.shiftRight_eq_div_pow]
        omega
      simpa using this
    have hany : (padZeros 64 (input ++ [128])).any (fun j => j >>> 8 != 0) = true :=
      List.any_eq_true.mpr ⟨c, hmem, hbit⟩
    simp [hany]
  · intro hall
    rw [sha256_as_core]
    unfold sha256Core
    have hany : (padZeros 64 (input ++ [128])).any (fun j => j >>> 8 != 0) = false := by
      rw [List.any_eq_false]
      intro x hx
      have hx255 : x ≤ 255 := by
        rcases mem_padZeros _ _ x hx with hx1 | rfl
        · rcases List.mem_append.mp hx1 with h | h
          · exact hall x h
          · simp only [List.mem_singleton] at h
            omega
        · omega
      have : x >>> 8 = 0 := by
        rw [Nat.shiftRight_eq_div_pow]
        omega
      simp [this]
    simp only [hany, Bool.false_eq_true, if_false]
    exact ⟨_, rfl, toHexDigest_length _, toHexDigest_chars _⟩

/-- Witness for C9: a Cyrillic code unit is rejected, `abc` hashes to
64 lowercase hex characters. -/
theorem sha256_rejects_nonlatin1_else_hex_witness :
    CryptoEngine.sha256 [1055] = none ∧
    (CryptoEngine.sha256 (strCodes (r"abc"))).isSome = true := by
  constructor
  · exact (sha256_rejects_nonlatin1_else_hex [1055]).1 ⟨1055, by decide, by decide⟩
  · obtain ⟨d, hd, -, -⟩ :=
      (sha256_rejects_nonlatin1_else_hex (strCodes (r"abc"))).2 (by decide)
    rw [hd]
    rfl

/-! ### C10: the length-mismatch check sits at call time, not load time -/

/-- C10 (counterexample to the claim as stated).  Run the body of
`calculateRTP` against a configuration whose multiplier array has the wrong
length (1 instead of rowCount + 1 = 9): the mismatch is not a load-time
failure — the call returns the silent fallback value 0 at runtime.  No
load-time validation of `PayTables` exists anywhere in the repository. -/
theorem paytable_mismatch_runtime_fallback :
    calculateRTPWith (fun _ _ => [1]) 8 Risk.low = 0 ∧
    ((fun (_ : Nat) (_ : Risk) => ([1] : List ℚ)) 8 Risk.low).length ≠ 8 + 1 := by
  refine ⟨by decide, by decide⟩

/-- C10 (amended).  The only length check is inside `calculateRTP` itself:
whenever the configured multiplier array disagrees in length with the
probability vector, the call logs and returns the fallback RTP 0 instead of
failing; and the shipped `PayTables` never has such a mismatch, so the
fallback branch is unreachable with the reference configuration. -/
theorem paytable_mismatch_checked_at_call_time :
    (∀ (tables : Nat → Risk → List ℚ) (rows : Nat) (risk : Risk),
      (tables rows risk).length ≠ (getProbabilities rows).length →
      calculateRTPWith tables rows risk = 0) ∧
    (∀ r ∈ supportedRowCounts, ∀ risk ∈ allRisks,
      (PayTables r risk).length = (getProbabilities r).length) := by
  constructor
  · intro tables rows risk h
    simp only [calculateRTPWith]
    rw [if_pos h]
  · decide

/-- Witness for the amended C10. -/
theorem paytable_mismatch_checked_at_call_time_witness :
    calculateRTPWith (fun _ _ => [2, 3]) 9 Risk.normal = 0 ∧
    (PayTables 9 Risk.normal).length = (getProbabilities 9).length :=
  ⟨paytable_mismatch_checked_at_call_time.1 (fun _ _ => [2, 3]) 9 Risk.normal (by decide),
   paytable_mismatch_checked_at_call_time.2 9 (by decide) Risk.normal (by decide)⟩

end Plinko
